import Mathlib

/- Verification development for the ReAct agent repository (ReAct.py).

   The embedding covers: the conversation transcript built by `Agent`, the
   directive parser `ReActLoop.extract_action` (the regex
   `Action: ([a-z_]+): (.+)` with `re.IGNORECASE`), the tool registry and the
   orchestration loop `ReActLoop.run`, and the two capabilities
   `BingSearch.__call__` and `Calculator.__call__`.  External effects (the
   language model, the HTTP transport, the Python expression compiler) appear
   as explicit parameters or as outcome values of `Except`-shaped types. -/

/-- Scan for the needle as a contiguous sublist starting at any position. -/
def subAt (needle : List Char) : List Char → Bool
  | [] => needle.isEmpty
  | c :: cs => needle.isPrefixOf (c :: cs) || subAt needle cs

/-- Boolean substring containment, the embedding of the Python `in` operator
on strings, as in `"Answer" in result`. -/
def containsSub (needle hay : String) : Bool :=
  subAt needle.data hay.data

/-- One chat message, as the role/content dicts built by `Agent`. -/
structure Message where
  role : String
  content : String
deriving DecidableEq

/-- Embedding of `Agent.__init__`: a nonempty system prompt seeds the
transcript with a single system message; an empty one (falsy in Python)
leaves the transcript empty. -/
def Agent_init (system : String) : List Message :=
  if system = "" then [] else [⟨"system", system⟩]

/-- The user-append step of `Agent.__call__`: `if message:` appends the user
message, and an empty string (falsy in Python) is skipped. -/
def appendUser (msgs : List Message) (message : String) : List Message :=
  if message = "" then msgs else msgs ++ [⟨"user", message⟩]

/-- Embedding of `Agent.__call__`: append the user message (if nonempty),
obtain the completion for the updated transcript, append it as an assistant
message, and return the pair of the new transcript and the completion. -/
def Agent_call (llm : List Message → String) (msgs : List Message)
    (message : String) : List Message × String :=
  (appendUser msgs message ++ [⟨"assistant", llm (appendUser msgs message)⟩],
   llm (appendUser msgs message))

/-- Characters matched by the name group `([a-z_]+)` of the action regex.
Because the regex carries `re.IGNORECASE`, the class also matches the
uppercase letters. -/
def isNameChar (c : Char) : Bool :=
  c.isLower || c.isUpper || c == '_'

/-- Case-insensitive character comparison, as `re.IGNORECASE` compares the
literal part of the pattern. -/
def charCI (p c : Char) : Bool :=
  p.toLower == c.toLower

/-- Match a literal pattern case-insensitively at the head of the input,
returning the remainder of the input on success. -/
def matchLitCI : List Char → List Char → Option (List Char)
  | [], s => some s
  | _ :: _, [] => none
  | p :: ps, c :: cs => if charCI p c then matchLitCI ps cs else none

/-- Attempt the regex `Action: ([a-z_]+): (.+)` (IGNORECASE) at one start
position.  The name group is the maximal nonempty run of name characters;
backtracking it cannot help, because a shortened name group would be followed
by a name character, never by the required colon.  The `.+` group greedily
takes the rest of the line and must be nonempty. -/
def matchAtPos (s : List Char) : Option (List Char × List Char) :=
  match matchLitCI "Action: ".data s with
  | none => none
  | some r1 =>
    if (r1.takeWhile isNameChar).isEmpty then none
    else
      match r1.dropWhile isNameChar with
      | ':' :: ' ' :: r3 =>
        if (r3.takeWhile (fun c => c != '\n')).isEmpty then none
        else some (r1.takeWhile isNameChar, r3.takeWhile (fun c => c != '\n'))
      | _ => none

/-- Scan left to right for the first start position where the action pattern
matches, which is how `re.findall` finds its first returned match. -/
def extractAux : List Char → Option (List Char × List Char)
  | [] => none
  | c :: cs =>
    match matchAtPos (c :: cs) with
    | some p => some p
    | none => extractAux cs

/-- Embedding of `ReActLoop.extract_action`: the first (name, rest of line)
group pair found by `re.findall` for the action pattern, or `none` when the
pattern matches nowhere in the text. -/
def extract_action (text : String) : Option (String × String) :=
  (extractAux text.data).map (fun p => (String.mk p.1, String.mk p.2))

/-- Embedding of the `ReActLoop` registry built in `__init__` together with
its `dict.get` lookup.  The two registered capabilities are abstract text
functions here; the keys are exactly the strings of the source and the
lookup is exact (case-sensitive) string equality. -/
def tools_get (wiki calcF : String → String) (name : String) :
    Option (String → String) :=
  if name = "wikipedia" then some wiki
  else if name = "calculate" then some calcF
  else none

/-- Outcome of one iteration body of `ReActLoop.run` once the completion has
arrived: either the run returns the completion text (the Answer branch), or
the loop continues with a next prompt, recording the dispatched capability
call when one happened. -/
inductive StepResult where
  | answered (result : String)
  | continued (nextPrompt : String) (toolCall : Option (String × String))
deriving DecidableEq

/-- The per-iteration control flow of `ReActLoop.run` after the completion:
Answer short-circuit, format check, directive extraction, and dispatch. -/
def loopStep (wiki calcF : String → String) (prompt result : String) :
    StepResult :=
  if containsSub "Answer" result then .answered result
  else if !containsSub "PAUSE" result || !containsSub "Action" result then
    .continued prompt none
  else
    match extract_action result with
    | none => .continued prompt none
    | some (tool_name, arg) =>
      match tools_get wiki calcF tool_name with
      | some tool =>
        .continued ("Observation: " ++ tool arg) (some (tool_name, arg))
      | none =>
        .continued ("Observation: Tool \x27" ++ tool_name ++ "\x27 not found")
          none

/-- Embedding of `ReActLoop.run`: iterate the loop body over the remaining
iteration budget, returning the completion on the Answer branch and the
exhaustion sentinel once the budget is used up. -/
def ReActLoop_run (llm : List Message → String) (wiki calcF : String → String) :
    Nat → List Message → String → String
  | 0, _, _ => "达到最大迭代次数限制"
  | Nat.succ n, msgs, next_prompt =>
    match loopStep wiki calcF next_prompt (Agent_call llm msgs next_prompt).2 with
    | .answered r => r
    | .continued np _ =>
      ReActLoop_run llm wiki calcF n (Agent_call llm msgs next_prompt).1 np

/-- Instrumented run state: the final result together with the completions
requested, the capability calls dispatched, and the final transcript. -/
structure RunTrace where
  result : String
  completions : List String
  toolCalls : List (String × String)
  msgs : List Message
deriving DecidableEq

/-- Instrumented version of `ReActLoop_run`, recording each requested
completion, each dispatched capability call and the transcript. -/
def runTrace (llm : List Message → String) (wiki calcF : String → String) :
    Nat → List Message → String → RunTrace
  | 0, msgs, _ => ⟨"达到最大迭代次数限制", [], [], msgs⟩
  | Nat.succ n, msgs, prompt =>
    match loopStep wiki calcF prompt (Agent_call llm msgs prompt).2 with
    | .answered r =>
      ⟨r, [(Agent_call llm msgs prompt).2], [], (Agent_call llm msgs prompt).1⟩
    | .continued np tc =>
      ⟨(runTrace llm wiki calcF n (Agent_call llm msgs prompt).1 np).result,
       (Agent_call llm msgs prompt).2 ::
         (runTrace llm wiki calcF n (Agent_call llm msgs prompt).1 np).completions,
       tc.toList ++
         (runTrace llm wiki calcF n (Agent_call llm msgs prompt).1 np).toolCalls,
       (runTrace llm wiki calcF n (Agent_call llm msgs prompt).1 np).msgs⟩

/-- One parsed result block of the search response (a `.b_algo` item): the
optional `h2` heading text and the optional `.b_caption p` caption text.
`none` covers both a missing element and a falsy (childless) element, the
two cases rejected by `if title and desc`. -/
structure SearchItem where
  title : Option String
  desc : Option String
deriving DecidableEq

/-- The result-collection loop of `BingSearch.__call__`: append one
heading/caption line for each block having both parts, breaking as soon as
five lines have been collected. -/
def searchLines : List SearchItem → List String → List String
  | [], acc => acc
  | item :: rest, acc =>
    let acc1 :=
      match item.title, item.desc with
      | some t, some d => acc ++ [t.trim ++ ": " ++ d.trim]
      | _, _ => acc
    if 5 ≤ acc1.length then acc1 else searchLines rest acc1

/-- Embedding of `str.join` with a newline separator. -/
def joinNL : List String → String
  | [] => ""
  | [s] => s
  | s :: rest => s ++ "\n" ++ joinNL rest

/-- The whole-body outcome of the search request: either a fetched and parsed
2xx response, given as its list of result blocks, or any raised fault
(network error, non-2xx status via `raise_for_status`, parse error) with its
message.  The body of `BingSearch.__call__` is wrapped in a single
try/except, so every fault lands in the second constructor. -/
inductive SearchOutcome where
  | response (items : List SearchItem)
  | fault (detail : String)
deriving DecidableEq

/-- Embedding of `BingSearch.__call__`: join up to five result lines, fall
back to the no-results sentinel when none were collected, and convert any
exception into the failure string. -/
def BingSearch_call : SearchOutcome → String
  | .response items =>
    if (searchLines items []).isEmpty then "未找到相关结果"
    else joinNL (searchLines items [])
  | .fault e => "搜索失败: " ++ e

/-- Values reachable by the modelled calculator expressions: Python ints,
strings, and the empty dict (the value bound to `__builtins__` in the
restricted globals passed to `eval`). -/
inductive PyVal where
  | int (n : Int)
  | str (s : String)
  | emptyDict
deriving DecidableEq

/-- Python exceptions surfaced by evaluating a modelled expression in the
restricted environment. -/
inductive PyErr where
  | nameError (name : String)
  | typeError (msg : String)
deriving DecidableEq

/-- The message `str(e)` of the modelled exceptions; for `NameError` this is
the exact CPython message. -/
def errString : PyErr → String
  | .nameError n => "name \x27" ++ n ++ "\x27 is not defined"
  | .typeError m => m

/-- Modelled fragment of the Python expressions handed to `eval`: integer
literals, string literals, bare names, and the arithmetic operators for
addition, subtraction, multiplication and unary negation. -/
inductive PyExpr where
  | num (n : Int)
  | strLit (s : String)
  | name (s : String)
  | add (a b : PyExpr)
  | sub (a b : PyExpr)
  | mul (a b : PyExpr)
  | neg (a : PyExpr)
deriving DecidableEq

/-- Name lookup for `eval` as called by `Calculator.__call__`: the locals
dict is empty and the globals dict binds exactly the key `__builtins__` to an
empty dict, so that one name resolves to the empty dict and every other name
raises `NameError`. -/
def lookupRestricted (s : String) : Except PyErr PyVal :=
  if s = "__builtins__" then .ok .emptyDict else .error (.nameError s)

/-- Python binary `+` on the modelled values: int addition and string
concatenation; other operand combinations raise `TypeError`. -/
def pyAdd : PyVal → PyVal → Except PyErr PyVal
  | .int a, .int b => .ok (.int (a + b))
  | .str a, .str b => .ok (.str (a ++ b))
  | _, _ => .error (.typeError "unsupported operand type(s) for +")

/-- Python binary `-` on the modelled values. -/
def pySub : PyVal → PyVal → Except PyErr PyVal
  | .int a, .int b => .ok (.int (a - b))
  | _, _ => .error (.typeError "unsupported operand type(s) for -")

/-- Python binary `*` on the modelled values (integer case only). -/
def pyMul : PyVal → PyVal → Except PyErr PyVal
  | .int a, .int b => .ok (.int (a * b))
  | _, _ => .error (.typeError "unsupported operand type(s) for *")

/-- Python unary `-` on the modelled values. -/
def pyNeg : PyVal → Except PyErr PyVal
  | .int a => .ok (.int (-a))
  | _ => .error (.typeError "bad operand type for unary -")

/-- Evaluation of the modelled expression fragment in the restricted
environment used by `Calculator.__call__`. -/
def pyEval : PyExpr → Except PyErr PyVal
  | .num n => .ok (.int n)
  | .strLit s => .ok (.str s)
  | .name s => lookupRestricted s
  | .add a b => do pyAdd (← pyEval a) (← pyEval b)
  | .sub a b => do pySub (← pyEval a) (← pyEval b)
  | .mul a b => do pyMul (← pyEval a) (← pyEval b)
  | .neg a => do pyNeg (← pyEval a)

/-- Python `str` on the modelled values. -/
def pyStr : PyVal → String
  | .int n => toString n
  | .str s => s
  | .emptyDict => "\x7b\x7d"

/-- Embedding of `Calculator.__call__`: the argument text is first compiled
by Python (a parse failure is an exception like any other) and then
evaluated; the single try/except converts every exception into the failure
string, and a successful value is rendered with `str`. -/
def Calculator_call : Except String PyExpr → String
  | .error e => "计算失败: " ++ e
  | .ok expr =>
    match pyEval expr with
    | .ok v => pyStr v
    | .error err => "计算失败: " ++ errString err

/-- Spec-side predicate: the expression is built from integer literals and
arithmetic operators only. -/
def ArithOnly : PyExpr → Bool
  | .num _ => true
  | .strLit _ => false
  | .name _ => false
  | .add a b => ArithOnly a && ArithOnly b
  | .sub a b => ArithOnly a && ArithOnly b
  | .mul a b => ArithOnly a && ArithOnly b
  | .neg a => ArithOnly a

/-- Whether the evaluation of a modelled expression succeeds. -/
def pyEvalOk (e : PyExpr) : Bool :=
  match pyEval e with
  | .ok _ => true
  | .error _ => false

/-- Spec-side shape of a transcript segment: one user/assistant message pair
per loop iteration, in order. -/
def interleaved (pairs : List (String × String)) : List Message :=
  pairs.flatMap (fun q => [⟨"user", q.1⟩, ⟨"assistant", q.2⟩])

theorem Agent_call_fst (llm : List Message → String) (msgs : List Message)
    (m : String) :
    (Agent_call llm msgs m).1 =
      appendUser msgs m ++ [⟨"assistant", llm (appendUser msgs m)⟩] := rfl

theorem Agent_call_snd (llm : List Message → String) (msgs : List Message)
    (m : String) : (Agent_call llm msgs m).2 = llm (appendUser msgs m) := rfl

theorem interleaved_nil : interleaved [] = [] := rfl

theorem interleaved_cons (q : String × String) (pairs : List (String × String)) :
    interleaved (q :: pairs) =
      ⟨"user", q.1⟩ :: ⟨"assistant", q.2⟩ :: interleaved pairs := rfl

theorem string_data_append (s t : String) : (s ++ t).data = s.data ++ t.data := by
  cases s
  cases t
  rfl

theorem append_ne_empty_left (s t : String) (h : s.data ≠ []) : s ++ t ≠ "" := by
  intro he
  apply h
  have hd := congrArg String.data he
  rw [string_data_append] at hd
  exact (List.append_eq_nil.mp hd).1

theorem append3_ne_empty (a b t : String) (h : a.data ≠ []) :
    a ++ b ++ t ≠ "" := by
  apply append_ne_empty_left
  rw [string_data_append]
  intro he
  exact h (List.append_eq_nil.mp he).1

theorem loopStep_answered_inv (w f : String → String) (p r a : String)
    (h : loopStep w f p r = .answered a) :
    containsSub "Answer" r = true ∧ a = r := by
  by_cases hA : containsSub "Answer" r = true
  · refine ⟨hA, ?_⟩
    unfold loopStep at h
    rw [hA] at h
    simp at h
    exact h.symm
  · exfalso
    rw [Bool.not_eq_true] at hA
    unfold loopStep at h
    rw [hA] at h
    simp only [Bool.false_eq_true, if_false] at h
    split at h
    · exact StepResult.noConfusion h
    · split at h
      · exact StepResult.noConfusion h
      · split at h
        · exact StepResult.noConfusion h
        · exact StepResult.noConfusion h

theorem loopStep_no_answer (w f : String → String) (p r : String)
    (h : containsSub "Answer" r = false) :
    ∃ np tc, loopStep w f p r = .continued np tc := by
  rcases hs : loopStep w f p r with a | ⟨np, tc⟩
  · have hA := (loopStep_answered_inv w f p r a hs).1
    rw [h] at hA
    exact absurd hA (by simp)
  · exact ⟨np, tc, rfl⟩

theorem loopStep_format (w f : String → String) (p r : String)
    (h1 : containsSub "Answer" r = false)
    (h2 : containsSub "PAUSE" r = false ∨ containsSub "Action" r = false) :
    loopStep w f p r = .continued p none := by
  unfold loopStep
  rcases h2 with h | h <;> simp [h1, h]

theorem loopStep_unknown (w f : String → String) (p r name arg : String)
    (h1 : containsSub "Answer" r = false)
    (h2 : containsSub "PAUSE" r = true)
    (h3 : containsSub "Action" r = true)
    (h4 : extract_action r = some (name, arg))
    (h5 : name ≠ "wikipedia") (h6 : name ≠ "calculate") :
    loopStep w f p r =
      .continued ("Observation: Tool \x27" ++ name ++ "\x27 not found") none := by
  unfold loopStep
  rw [h1, h2, h3, h4]
  simp [tools_get, h5, h6]

theorem loopStep_continued_prompt_ne (w f : String → String) (p r np : String)
    (tc : Option (String × String)) (hp : p ≠ "")
    (h : loopStep w f p r = .continued np tc) : np ≠ "" := by
  unfold loopStep at h
  split at h
  · exact StepResult.noConfusion h
  · split at h
    · injection h with h1 h2
      rw [← h1]
      exact hp
    · split at h
      · injection h with h1 h2
        rw [← h1]
        exact hp
      · split at h
        · injection h with h1 h2
          rw [← h1]
          refine append_ne_empty_left _ _ ?_
          decide
        · injection h with h1 h2
          rw [← h1]
          refine append3_ne_empty _ _ _ ?_
          decide

theorem runTrace_succ_answered (llm : List Message → String)
    (w f : String → String) (n : Nat) (msgs : List Message) (p a : String)
    (h : loopStep w f p (Agent_call llm msgs p).2 = .answered a) :
    runTrace llm w f (n + 1) msgs p =
      ⟨a, [(Agent_call llm msgs p).2], [], (Agent_call llm msgs p).1⟩ := by
  have he : runTrace llm w f (n + 1) msgs p =
      match loopStep w f p (Agent_call llm msgs p).2 with
      | .answered r =>
        ⟨r, [(Agent_call llm msgs p).2], [], (Agent_call llm msgs p).1⟩
      | .continued np tc =>
        ⟨(runTrace llm w f n (Agent_call llm msgs p).1 np).result,
         (Agent_call llm msgs p).2 ::
           (runTrace llm w f n (Agent_call llm msgs p).1 np).completions,
         tc.toList ++ (runTrace llm w f n (Agent_call llm msgs p).1 np).toolCalls,
         (runTrace llm w f n (Agent_call llm msgs p).1 np).msgs⟩ := rfl
  rw [he, h]

theorem runTrace_succ_continued (llm : List Message → String)
    (w f : String → String) (n : Nat) (msgs : List Message) (p np : String)
    (tc : Option (String × String))
    (h : loopStep w f p (Agent_call llm msgs p).2 = .continued np tc) :
    runTrace llm w f (n + 1) msgs p =
      ⟨(runTrace llm w f n (Agent_call llm msgs p).1 np).result,
       (Agent_call llm msgs p).2 ::
         (runTrace llm w f n (Agent_call llm msgs p).1 np).completions,
       tc.toList ++ (runTrace llm w f n (Agent_call llm msgs p).1 np).toolCalls,
       (runTrace llm w f n (Agent_call llm msgs p).1 np).msgs⟩ := by
  have he : runTrace llm w f (n + 1) msgs p =
      match loopStep w f p (Agent_call llm msgs p).2 with
      | .answered r =>
        ⟨r, [(Agent_call llm msgs p).2], [], (Agent_call llm msgs p).1⟩
      | .continued np tc =>
        ⟨(runTrace llm w f n (Agent_call llm msgs p).1 np).result,
         (Agent_call llm msgs p).2 ::
           (runTrace llm w f n (Agent_call llm msgs p).1 np).completions,
         tc.toList ++ (runTrace llm w f n (Agent_call llm msgs p).1 np).toolCalls,
         (runTrace llm w f n (Agent_call llm msgs p).1 np).msgs⟩ := rfl
  rw [he, h]

theorem run_succ_answered (llm : List Message → String)
    (w f : String → String) (n : Nat) (msgs : List Message) (p a : String)
    (h : loopStep w f p (Agent_call llm msgs p).2 = .answered a) :
    ReActLoop_run llm w f (n + 1) msgs p = a := by
  have he : ReActLoop_run llm w f (n + 1) msgs p =
      match loopStep w f p (Agent_call llm msgs p).2 with
      | .answered r => r
      | .continued np _ =>
        ReActLoop_run llm w f n (Agent_call llm msgs p).1 np := rfl
  rw [he, h]

theorem run_succ_continued (llm : List Message → String)
    (w f : String → String) (n : Nat) (msgs : List Message) (p np : String)
    (tc : Option (String × String))
    (h : loopStep w f p (Agent_call llm msgs p).2 = .continued np tc) :
    ReActLoop_run llm w f (n + 1) msgs p =
      ReActLoop_run llm w f n (Agent_call llm msgs p).1 np := by
  have he : ReActLoop_run llm w f (n + 1) msgs p =
      match loopStep w f p (Agent_call llm msgs p).2 with
      | .answered r => r
      | .continued np _ =>
        ReActLoop_run llm w f n (Agent_call llm msgs p).1 np := rfl
  rw [he, h]

theorem run_eq_trace (llm : List Message → String) (w f : String → String) :
    ∀ (n : Nat) (msgs : List Message) (p : String),
    ReActLoop_run llm w f n msgs p = (runTrace llm w f n msgs p).result := by
  intro n
  induction n with
  | zero => intro msgs p; rfl
  | succ k ih =>
    intro msgs p
    rcases hs : loopStep w f p (Agent_call llm msgs p).2 with a | ⟨np, tc⟩
    · rw [run_succ_answered llm w f k msgs p a hs,
        runTrace_succ_answered llm w f k msgs p a hs]
    · rw [run_succ_continued llm w f k msgs p np tc hs,
        runTrace_succ_continued llm w f k msgs p np tc hs]
      exact ih (Agent_call llm msgs p).1 np

/-- Claim C1: for every completion text that contains the substring Answer,
the orchestration loop terminates on that iteration and returns that
completion text exactly as the result of the run, with no format check or
capability dispatch: the trace of the remaining run holds that single
completion and no tool call, regardless of Action or PAUSE content. -/
theorem C1_answer_short_circuit (llm : List Message → String)
    (w f : String → String) (n : Nat) (msgs : List Message) (prompt : String)
    (h : containsSub "Answer" (llm (appendUser msgs prompt)) = true) :
    ReActLoop_run llm w f (n + 1) msgs prompt = llm (appendUser msgs prompt)
    ∧ (runTrace llm w f (n + 1) msgs prompt).completions
        = [llm (appendUser msgs prompt)]
    ∧ (runTrace llm w f (n + 1) msgs prompt).toolCalls = [] := by
  have hstep : loopStep w f prompt (Agent_call llm msgs prompt).2
      = .answered (llm (appendUser msgs prompt)) := by
    unfold loopStep
    rw [Agent_call_snd, h]
    simp
  refine ⟨?_, ?_, ?_⟩
  · rw [run_succ_answered llm w f n msgs prompt _ hstep]
  · rw [runTrace_succ_answered llm w f n msgs prompt _ hstep]
    simp [Agent_call_snd]
  · rw [runTrace_succ_answered llm w f n msgs prompt _ hstep]

/-- Witness for C1 at a concrete run of one remaining iteration. -/
theorem C1_answer_short_circuit_witness :
    ReActLoop_run (fun _ => "Answer: 42") (fun s => s) (fun s => s) 1 [] "q"
        = "Answer: 42"
    ∧ (runTrace (fun _ => "Answer: 42") (fun s => s) (fun s => s)
        1 [] "q").completions = ["Answer: 42"]
    ∧ (runTrace (fun _ => "Answer: 42") (fun s => s) (fun s => s)
        1 [] "q").toolCalls = [] :=
  C1_answer_short_circuit (fun _ => "Answer: 42") (fun s => s) (fun s => s)
    0 [] "q" (by decide)

/-- Claim C2: in every run in which no requested completion contains the
substring Answer, the loop performs exactly its budget of iterations,
requesting exactly that many completions, and returns the fixed exhaustion
sentinel string. -/
theorem C2_exhaustion (llm : List Message → String) (w f : String → String)
    (n : Nat) :
    ∀ (msgs : List Message) (prompt : String),
    (∀ c ∈ (runTrace llm w f n msgs prompt).completions,
        containsSub "Answer" c = false) →
    (runTrace llm w f n msgs prompt).completions.length = n
    ∧ ReActLoop_run llm w f n msgs prompt = "达到最大迭代次数限制" := by
  induction n with
  | zero =>
    intro msgs prompt h
    exact ⟨rfl, rfl⟩
  | succ k ih =>
    intro msgs prompt h
    rcases hs : loopStep w f prompt (Agent_call llm msgs prompt).2
      with a | ⟨np, tc⟩
    · exfalso
      have hmem : (Agent_call llm msgs prompt).2
          ∈ (runTrace llm w f (k + 1) msgs prompt).completions := by
        rw [runTrace_succ_answered llm w f k msgs prompt a hs]
        simp
      have hfalse := h _ hmem
      have htrue := (loopStep_answered_inv w f prompt
        (Agent_call llm msgs prompt).2 a hs).1
      rw [htrue] at hfalse
      exact Bool.noConfusion hfalse
    · have hcomp := runTrace_succ_continued llm w f k msgs prompt np tc hs
      have htail : ∀ c ∈ (runTrace llm w f k
          (Agent_call llm msgs prompt).1 np).completions,
          containsSub "Answer" c = false := by
        intro c hc
        apply h
        rw [hcomp]
        exact List.mem_cons_of_mem _ hc
      obtain ⟨hlen, hrun⟩ := ih (Agent_call llm msgs prompt).1 np htail
      constructor
      · rw [hcomp]
        simp [hlen]
      · rw [run_succ_continued llm w f k msgs prompt np tc hs]
        exact hrun

/-- Witness for C2: a model that never answers exhausts a budget of two
iterations, with exactly two completions requested. -/
theorem C2_exhaustion_witness :
    (runTrace (fun _ => "thinking") (fun s => s) (fun s => s)
        2 [] "q").completions.length = 2
    ∧ ReActLoop_run (fun _ => "thinking") (fun s => s) (fun s => s) 2 [] "q"
        = "达到最大迭代次数限制" :=
  C2_exhaustion (fun _ => "thinking") (fun s => s) (fun s => s) 2 [] "q"
    (by decide)

/-- Claim C3: a completion without Answer that lacks PAUSE or lacks Action
makes the loop invoke no capability on that iteration, consume exactly one
iteration of the budget, and proceed to the next iteration with the next
prompt unchanged from its previous value. -/
theorem C3_format_fault (llm : List Message → String) (w f : String → String)
    (n : Nat) (msgs : List Message) (prompt : String)
    (h1 : containsSub "Answer" (llm (appendUser msgs prompt)) = false)
    (h2 : containsSub "PAUSE" (llm (appendUser msgs prompt)) = false
        ∨ containsSub "Action" (llm (appendUser msgs prompt)) = false) :
    runTrace llm w f (n + 1) msgs prompt =
      ⟨(runTrace llm w f n
          (appendUser msgs prompt
            ++ [⟨"assistant", llm (appendUser msgs prompt)⟩]) prompt).result,
       llm (appendUser msgs prompt) ::
         (runTrace llm w f n
           (appendUser msgs prompt
             ++ [⟨"assistant", llm (appendUser msgs prompt)⟩]) prompt).completions,
       (runTrace llm w f n
         (appendUser msgs prompt
           ++ [⟨"assistant", llm (appendUser msgs prompt)⟩]) prompt).toolCalls,
       (runTrace llm w f n
         (appendUser msgs prompt
           ++ [⟨"assistant", llm (appendUser msgs prompt)⟩]) prompt).msgs⟩ := by
  have hstep : loopStep w f prompt (Agent_call llm msgs prompt).2
      = .continued prompt none := by
    rw [Agent_call_snd]
    exact loopStep_format w f prompt _ h1 h2
  rw [runTrace_succ_continued llm w f n msgs prompt prompt none hstep]
  simp [Agent_call_fst, Agent_call_snd]

/-- Witness for C3 at a malformed completion lacking both PAUSE and Action. -/
theorem C3_format_fault_witness :
    runTrace (fun _ => "Thought only") (fun s => s) (fun s => s) 1 [] "q" =
      ⟨(runTrace (fun _ => "Thought only") (fun s => s) (fun s => s) 0
          (appendUser [] "q" ++ [⟨"assistant", "Thought only"⟩]) "q").result,
       "Thought only" ::
         (runTrace (fun _ => "Thought only") (fun s => s) (fun s => s) 0
           (appendUser [] "q" ++ [⟨"assistant", "Thought only"⟩]) "q").completions,
       (runTrace (fun _ => "Thought only") (fun s => s) (fun s => s) 0
         (appendUser [] "q" ++ [⟨"assistant", "Thought only"⟩]) "q").toolCalls,
       (runTrace (fun _ => "Thought only") (fun s => s) (fun s => s) 0
         (appendUser [] "q" ++ [⟨"assistant", "Thought only"⟩]) "q").msgs⟩ :=
  C3_format_fault (fun _ => "Thought only") (fun s => s) (fun s => s) 0 [] "q"
    (by decide) (Or.inl (by decide))

/-- Claim C5: a directive extracted from a well-formed completion whose
capability name is not a registry key does not make the loop fail: the next
prompt becomes exactly the Tool-not-found observation for that name, no
capability is invoked, and the loop continues iterating. -/
theorem C5_unknown_tool (llm : List Message → String) (w f : String → String)
    (n : Nat) (msgs : List Message) (prompt name arg : String)
    (h1 : containsSub "Answer" (llm (appendUser msgs prompt)) = false)
    (h2 : containsSub "PAUSE" (llm (appendUser msgs prompt)) = true)
    (h3 : containsSub "Action" (llm (appendUser msgs prompt)) = true)
    (h4 : extract_action (llm (appendUser msgs prompt)) = some (name, arg))
    (h5 : name ≠ "wikipedia") (h6 : name ≠ "calculate") :
    runTrace llm w f (n + 1) msgs prompt =
      ⟨(runTrace llm w f n
          (appendUser msgs prompt
            ++ [⟨"assistant", llm (appendUser msgs prompt)⟩])
          ("Observation: Tool \x27" ++ name ++ "\x27 not found")).result,
       llm (appendUser msgs prompt) ::
         (runTrace llm w f n
           (appendUser msgs prompt
             ++ [⟨"assistant", llm (appendUser msgs prompt)⟩])
           ("Observation: Tool \x27" ++ name ++ "\x27 not found")).completions,
       (runTrace llm w f n
         (appendUser msgs prompt
           ++ [⟨"assistant", llm (appendUser msgs prompt)⟩])
         ("Observation: Tool \x27" ++ name ++ "\x27 not found")).toolCalls,
       (runTrace llm w f n
         (appendUser msgs prompt
           ++ [⟨"assistant", llm (appendUser msgs prompt)⟩])
         ("Observation: Tool \x27" ++ name ++ "\x27 not found")).msgs⟩ := by
  have hstep : loopStep w f prompt (Agent_call llm msgs prompt).2 =
      .continued ("Observation: Tool \x27" ++ name ++ "\x27 not found") none := by
    rw [Agent_call_snd]
    exact loopStep_unknown w f prompt _ name arg h1 h2 h3 h4 h5 h6
  rw [runTrace_succ_continued llm w f n msgs prompt _ none hstep]
  simp [Agent_call_fst, Agent_call_snd]

/-- Witness for C5 at the completion of the claim. -/
theorem C5_unknown_tool_witness :
    runTrace (fun _ => "Action: unknown_tool: foo\nPAUSE") (fun s => s)
        (fun s => s) 1 [] "q" =
      ⟨(runTrace (fun _ => "Action: unknown_tool: foo\nPAUSE") (fun s => s)
          (fun s => s) 0
          (appendUser [] "q"
            ++ [⟨"assistant", "Action: unknown_tool: foo\nPAUSE"⟩])
          ("Observation: Tool \x27unknown_tool\x27 not found")).result,
       "Action: unknown_tool: foo\nPAUSE" ::
         (runTrace (fun _ => "Action: unknown_tool: foo\nPAUSE") (fun s => s)
           (fun s => s) 0
           (appendUser [] "q"
             ++ [⟨"assistant", "Action: unknown_tool: foo\nPAUSE"⟩])
           ("Observation: Tool \x27unknown_tool\x27 not found")).completions,
       (runTrace (fun _ => "Action: unknown_tool: foo\nPAUSE") (fun s => s)
         (fun s => s) 0
         (appendUser [] "q"
           ++ [⟨"assistant", "Action: unknown_tool: foo\nPAUSE"⟩])
         ("Observation: Tool \x27unknown_tool\x27 not found")).toolCalls,
       (runTrace (fun _ => "Action: unknown_tool: foo\nPAUSE") (fun s => s)
         (fun s => s) 0
         (appendUser [] "q"
           ++ [⟨"assistant", "Action: unknown_tool: foo\nPAUSE"⟩])
         ("Observation: Tool \x27unknown_tool\x27 not found")).msgs⟩ :=
  C5_unknown_tool (fun _ => "Action: unknown_tool: foo\nPAUSE") (fun s => s)
    (fun s => s) 0 [] "q" "unknown_tool" "foo" (by decide) (by decide)
    (by decide) (by decide) (by decide) (by decide)

theorem runTrace_shape (llm : List Message → String) (w f : String → String) :
    ∀ (n : Nat) (msgs : List Message) (p : String), p ≠ "" →
    ∃ pairs : List (String × String),
      pairs.length = (runTrace llm w f n msgs p).completions.length ∧
      (runTrace llm w f n msgs p).msgs = msgs ++ interleaved pairs := by
  intro n
  induction n with
  | zero =>
    intro msgs p hp
    exact ⟨[], rfl, by simp [runTrace, interleaved_nil]⟩
  | succ k ih =>
    intro msgs p hp
    rcases hs : loopStep w f p (Agent_call llm msgs p).2 with a | ⟨np, tc⟩
    · refine ⟨[(p, llm (appendUser msgs p))], ?_, ?_⟩
      · rw [runTrace_succ_answered llm w f k msgs p a hs]
        rfl
      · rw [runTrace_succ_answered llm w f k msgs p a hs]
        simp [Agent_call_fst, appendUser, hp, interleaved_cons, interleaved_nil]
    · have hnp : np ≠ "" :=
        loopStep_continued_prompt_ne w f p (Agent_call llm msgs p).2 np tc hp hs
      obtain ⟨pairs, hlen, hmsgs⟩ := ih (Agent_call llm msgs p).1 np hnp
      refine ⟨(p, llm (appendUser msgs p)) :: pairs, ?_, ?_⟩
      · rw [runTrace_succ_continued llm w f k msgs p np tc hs]
        simp [hlen]
      · rw [runTrace_succ_continued llm w f k msgs p np tc hs]
        show (runTrace llm w f k (Agent_call llm msgs p).1 np).msgs = _
        rw [hmsgs]
        simp [Agent_call_fst, appendUser, hp, interleaved_cons]

theorem interleaved_roles (pairs : List (String × String)) :
    ∀ m ∈ interleaved pairs, m.role = "user" ∨ m.role = "assistant" := by
  induction pairs with
  | nil =>
    intro m hm
    rw [interleaved_nil] at hm
    exact absurd hm (List.not_mem_nil m)
  | cons q rest ih =>
    intro m hm
    rw [interleaved_cons] at hm
    rcases List.mem_cons.mp hm with rfl | hm2
    · left
      rfl
    · rcases List.mem_cons.mp hm2 with rfl | hm3
      · right
        rfl
      · exact ih m hm3

theorem interleaved_filter_system (pairs : List (String × String)) :
    (interleaved pairs).filter (fun m => m.role == "system") = [] := by
  induction pairs with
  | nil =>
    rw [interleaved_nil]
    rfl
  | cons q rest ih =>
    rw [interleaved_cons]
    simp [List.filter_cons, ih]

/-- Counterexample to claim C9: with an empty initial query (a legal run
input) the first iteration appends no user message at all, because
`Agent.__call__` skips the append for a falsy message.  The concrete run
below performs one iteration (one completion requested) yet its transcript
holds zero user messages instead of exactly one. -/
theorem C9_transcript_counterexample :
    (runTrace (fun _ => "no tools") (fun s => s) (fun s => s) 1
        [⟨"system", "sys"⟩] "").completions.length = 1
    ∧ ((runTrace (fun _ => "no tools") (fun s => s) (fun s => s) 1
        [⟨"system", "sys"⟩] "").msgs.filter
          (fun m => m.role == "user")).length = 0
    ∧ ¬ ((runTrace (fun _ => "no tools") (fun s => s) (fun s => s) 1
        [⟨"system", "sys"⟩] "").msgs.filter
          (fun m => m.role == "user")).length = 1 := by
  decide

/-- Claim C9 as amended: provided the initial query is nonempty, the
transcript after any run equals the initial transcript followed by exactly
one user and one assistant message per performed iteration, interleaved in
order (so the transcript only ever grows by appending); the transcript
holds at most one system message, and any system message is at its head. -/
theorem C9_transcript_amended (llm : List Message → String)
    (w f : String → String) (sys : String) (n : Nat) (query : String)
    (hq : query ≠ "") :
    ∃ pairs : List (String × String),
      pairs.length
          = (runTrace llm w f n (Agent_init sys) query).completions.length
      ∧ (runTrace llm w f n (Agent_init sys) query).msgs
          = Agent_init sys ++ interleaved pairs
      ∧ ((runTrace llm w f n (Agent_init sys) query).msgs.filter
            (fun m => m.role == "system")).length ≤ 1
      ∧ (∀ m ∈ (runTrace llm w f n (Agent_init sys) query).msgs,
            m.role = "system"
            → (runTrace llm w f n (Agent_init sys) query).msgs.head?
                = some m) := by
  obtain ⟨pairs, hlen, hmsgs⟩ :=
    runTrace_shape llm w f n (Agent_init sys) query hq
  refine ⟨pairs, hlen, hmsgs, ?_, ?_⟩
  · rw [hmsgs, List.filter_append, interleaved_filter_system pairs,
      List.append_nil]
    unfold Agent_init
    by_cases hsys : sys = ""
    · simp [hsys]
    · simp [hsys, List.filter_cons]
  · rw [hmsgs]
    intro m hm hrole
    rcases List.mem_append.mp hm with h | h
    · unfold Agent_init at h ⊢
      by_cases hsys : sys = ""
      · rw [if_pos hsys] at h
        exact absurd h (List.not_mem_nil m)
      · rw [if_neg hsys] at h ⊢
        have hmeq : m = ⟨"system", sys⟩ := by simpa using h
        rw [hmeq]
        rfl
    · exfalso
      rcases interleaved_roles pairs m h with h1 | h1 <;> rw [hrole] at h1 <;>
        exact absurd h1 (by decide)

/-- Witness for the amended C9 at a concrete one-iteration run with a
nonempty query. -/
theorem C9_transcript_amended_witness :
    ∃ pairs : List (String × String),
      pairs.length
          = (runTrace (fun _ => "no") (fun s => s) (fun s => s) 1
              (Agent_init "s") "q").completions.length
      ∧ (runTrace (fun _ => "no") (fun s => s) (fun s => s) 1
            (Agent_init "s") "q").msgs
          = Agent_init "s" ++ interleaved pairs
      ∧ ((runTrace (fun _ => "no") (fun s => s) (fun s => s) 1
            (Agent_init "s") "q").msgs.filter
              (fun m => m.role == "system")).length ≤ 1
      ∧ (∀ m ∈ (runTrace (fun _ => "no") (fun s => s) (fun s => s) 1
            (Agent_init "s") "q").msgs,
            m.role = "system"
            → (runTrace (fun _ => "no") (fun s => s) (fun s => s) 1
                (Agent_init "s") "q").msgs.head? = some m) :=
  C9_transcript_amended (fun _ => "no") (fun s => s) (fun s => s) "s" 1 "q"
    (by decide)

theorem matchLitCI_decomp : ∀ (pat s r : List Char),
    matchLitCI pat s = some r →
    ∃ lit, s = lit ++ r
      ∧ List.Forall₂ (fun p c => charCI p c = true) pat lit := by
  intro pat
  induction pat with
  | nil =>
    intro s r h
    have hs : s = r := by simpa [matchLitCI] using h
    exact ⟨[], by rw [hs]; rfl, List.Forall₂.nil⟩
  | cons p ps ih =>
    intro s r h
    cases s with
    | nil => exact absurd h (by simp [matchLitCI])
    | cons c cs =>
      simp only [matchLitCI] at h
      by_cases hc : charCI p c = true
      · rw [if_pos hc] at h
        obtain ⟨lit, hs, hf⟩ := ih cs r h
        exact ⟨c :: lit, by rw [hs]; rfl, List.Forall₂.cons hc hf⟩
      · rw [if_neg hc] at h
        exact absurd h (by simp)

theorem dropWhile_head_false (q : Char → Bool) :
    ∀ l : List Char, l.dropWhile q = []
      ∨ ∃ x xs, l.dropWhile q = x :: xs ∧ q x = false := by
  intro l
  induction l with
  | nil =>
    left
    rfl
  | cons a as ih =>
    by_cases h : q a = true
    · rw [List.dropWhile_cons, if_pos h]
      exact ih
    · rw [List.dropWhile_cons, if_neg h]
      right
      exact ⟨a, as, rfl, by simpa using h⟩

theorem matchAtPos_sound (s name rest : List Char)
    (h : matchAtPos s = some (name, rest)) :
    name ≠ [] ∧ (∀ c ∈ name, isNameChar c = true) ∧ rest ≠ [] ∧
    (∀ c ∈ rest, ¬ c = '\n') ∧
    ∃ lit tail,
      List.Forall₂ (fun p c => charCI p c = true) "Action: ".data lit ∧
      s = lit ++ (name ++ (':' :: ' ' :: (rest ++ tail))) ∧
      (tail = [] ∨ ∃ t2, tail = '\n' :: t2) := by
  unfold matchAtPos at h
  split at h
  · exact absurd h (by simp)
  · rename_i r1 hm
    split at h
    · exact absurd h (by simp)
    · rename_i he
      split at h
      · rename_i r3 heq
        split at h
        · exact absurd h (by simp)
        · rename_i hr
          have hinj := Option.some.inj h
          injection hinj with h1 h2
          subst h1
          subst h2
          refine ⟨?_, ?_, ?_, ?_, ?_⟩
          · intro hnil
            apply he
            rw [hnil]
            rfl
          · intro c hc
            exact List.mem_takeWhile_imp hc
          · intro hnil
            apply hr
            rw [hnil]
            rfl
          · intro c hc
            have h5 := List.mem_takeWhile_imp hc
            simpa using h5
          · obtain ⟨lit, hs, hf⟩ := matchLitCI_decomp "Action: ".data s r1 hm
            refine ⟨lit, r3.dropWhile (fun c => c != '\n'), hf, ?_, ?_⟩
            · rw [hs]
              congr 1
              conv_lhs => rw [← List.takeWhile_append_dropWhile isNameChar r1]
              rw [heq]
              conv_lhs =>
                rw [← List.takeWhile_append_dropWhile (fun c => c != '\n') r3]
            · rcases dropWhile_head_false (fun c => c != '\n') r3 with
                h0 | ⟨x, xs, hx, hqx⟩
              · left
                exact h0
              · right
                have hxn : x = '\n' := by simpa using hqx
                rw [hxn] at hx
                exact ⟨xs, hx⟩
      · exact absurd h (by simp)

theorem extractAux_first (l : List Char) (pr : List Char × List Char)
    (h : extractAux l = some pr) :
    ∃ i, matchAtPos (l.drop i) = some pr
      ∧ ∀ j, j < i → matchAtPos (l.drop j) = none := by
  induction l with
  | nil => exact absurd h (by simp [extractAux])
  | cons c cs ih =>
    unfold extractAux at h
    rcases hm : matchAtPos (c :: cs) with _ | q
    · rw [hm] at h
      obtain ⟨i, hi, hj⟩ := ih h
      refine ⟨i + 1, ?_, ?_⟩
      · rw [List.drop_succ_cons]
        exact hi
      · intro j hlt
        cases j with
        | zero => simpa using hm
        | succ j2 =>
          rw [List.drop_succ_cons]
          exact hj j2 (Nat.lt_of_succ_lt_succ hlt)
    · rw [hm] at h
      have hq : q = pr := Option.some.inj h
      subst hq
      exact ⟨0, by simpa using hm, fun j hlt => absurd hlt (Nat.not_lt_zero j)⟩

theorem extractAux_none (l : List Char)
    (h : ∀ i, matchAtPos (l.drop i) = none) : extractAux l = none := by
  induction l with
  | nil => rfl
  | cons c cs ih =>
    unfold extractAux
    have h0 : matchAtPos (c :: cs) = none := by simpa using h 0
    rw [h0]
    exact ih (fun i => by simpa using h (i + 1))

/-- Claim C4: the directive parser returns the first (name, rest-of-line)
pair of the text matching the case-insensitive pattern of an Action
directive — a case-insensitive `Action: ` literal, a nonempty name of
letters or underscores (the class is matched case-insensitively because the
whole regex carries IGNORECASE), a `: ` separator, and a nonempty rest of
line; it returns none when no position of the text matches; and for a
completion with two Action lines only the first pair is extracted and
dispatched. -/
theorem C4_extract_action_spec :
    (∀ (text name rest : String),
        extract_action text = some (name, rest) →
        ∃ i, matchAtPos (text.data.drop i) = some (name.data, rest.data)
          ∧ ∀ j, j < i → matchAtPos (text.data.drop j) = none)
    ∧ (∀ text : String,
        (∀ i, matchAtPos (text.data.drop i) = none)
        → extract_action text = none)
    ∧ (∀ s name rest : List Char,
        matchAtPos s = some (name, rest) →
        name ≠ [] ∧ (∀ c ∈ name, isNameChar c = true) ∧ rest ≠ [] ∧
        (∀ c ∈ rest, ¬ c = '\n') ∧
        ∃ lit tail,
          List.Forall₂ (fun p c => charCI p c = true) "Action: ".data lit ∧
          s = lit ++ (name ++ (':' :: ' ' :: (rest ++ tail))) ∧
          (tail = [] ∨ ∃ t2, tail = '\n' :: t2))
    ∧ extract_action "Action: calculate: 2 + 2\nAction: wikipedia: Django\nPAUSE"
        = some ("calculate", "2 + 2")
    ∧ (∀ (w f : String → String) (prompt : String),
        loopStep w f prompt
            "Action: calculate: 2 + 2\nAction: wikipedia: Django\nPAUSE"
          = .continued ("Observation: " ++ f "2 + 2")
              (some ("calculate", "2 + 2"))) := by
  refine ⟨?_, ?_, matchAtPos_sound, rfl, fun w f prompt => rfl⟩
  · intro text name rest h
    unfold extract_action at h
    rcases hx : extractAux text.data with _ | p
    · rw [hx] at h
      exact absurd h (by simp)
    · rw [hx] at h
      obtain ⟨p1, p2⟩ := p
      simp only [Option.map] at h
      have hinj := Option.some.inj h
      injection hinj with h1 h2
      subst h1
      subst h2
      obtain ⟨i, hi, hj⟩ := extractAux_first text.data (p1, p2) hx
      exact ⟨i, hi, hj⟩
  · intro text hall
    unfold extract_action
    rw [extractAux_none text.data hall]
    rfl

/-- Witness for C4: the characterization applied at a text whose first match
sits after a prefix, so the leading positions are certified matchless. -/
theorem C4_extract_action_spec_witness :
    ∃ i, matchAtPos (("x Action: calculate: 2 + 2").data.drop i)
        = some ("calculate".data, "2 + 2".data)
      ∧ ∀ j, j < i
        → matchAtPos (("x Action: calculate: 2 + 2").data.drop j) = none :=
  C4_extract_action_spec.1 "x Action: calculate: 2 + 2" "calculate" "2 + 2"
    (by decide)

/-- Counterexample to claim C10: a completion that contains PAUSE and Action
and whose first Action line names CALCULATE (differing from the registry key
calculate only by case) but that also contains the substring Answer makes
the loop return the completion text at once; the next prompt never becomes
the Tool-not-found observation, so the claim fails as stated for this
completion. -/
theorem C10_case_mismatch_counterexample :
    containsSub "PAUSE" "Answer soon\nAction: CALCULATE: 1+1\nPAUSE" = true
    ∧ containsSub "Action" "Answer soon\nAction: CALCULATE: 1+1\nPAUSE" = true
    ∧ extract_action "Answer soon\nAction: CALCULATE: 1+1\nPAUSE"
        = some ("CALCULATE", "1+1")
    ∧ loopStep (fun s => s) (fun s => s) "q"
          "Answer soon\nAction: CALCULATE: 1+1\nPAUSE"
        = .answered "Answer soon\nAction: CALCULATE: 1+1\nPAUSE"
    ∧ ¬ loopStep (fun s => s) (fun s => s) "q"
          "Answer soon\nAction: CALCULATE: 1+1\nPAUSE"
        = .continued "Observation: Tool \x27CALCULATE\x27 not found" none := by
  refine ⟨by decide, by decide, by decide, rfl, ?_⟩
  intro hcontra
  exact absurd (rfl.symm.trans hcontra) (by decide)

/-- Claim C10 as amended: for every completion not containing Answer that
contains both PAUSE and Action and whose first Action line names a
capability differing only in letter case from a registry key, the parser
accepts the name with its original casing, the case-sensitive registry
lookup fails, and the next prompt becomes the Tool-not-found observation for
that name instead of invoking the capability. -/
theorem C10_case_mismatch_amended (w f : String → String)
    (prompt text name arg : String)
    (h0 : containsSub "Answer" text = false)
    (h1 : containsSub "PAUSE" text = true)
    (h2 : containsSub "Action" text = true)
    (h3 : extract_action text = some (name, arg))
    (h4 : name.data.map Char.toLower = "calculate".data
        ∨ name.data.map Char.toLower = "wikipedia".data)
    (h5 : name ≠ "calculate") (h6 : name ≠ "wikipedia") :
    loopStep w f prompt text
      = .continued ("Observation: Tool \x27" ++ name ++ "\x27 not found")
          none := by
  exact loopStep_unknown w f prompt text name arg h0 h1 h2 h3 h6 h5

/-- Witness for the amended C10 at the completion of the claim. -/
theorem C10_case_mismatch_amended_witness :
    loopStep (fun s => s) (fun s => s) "q" "Action: CALCULATE: 1+1\nPAUSE"
      = .continued "Observation: Tool \x27CALCULATE\x27 not found" none :=
  C10_case_mismatch_amended (fun s => s) (fun s => s) "q"
    "Action: CALCULATE: 1+1\nPAUSE" "CALCULATE" "1+1" (by decide) (by decide)
    (by decide) (by decide) (Or.inl (by decide)) (by decide) (by decide)

theorem searchLines_le5 : ∀ (items : List SearchItem) (acc : List String),
    acc.length < 5 → (searchLines items acc).length ≤ 5 := by
  intro items
  induction items with
  | nil =>
    intro acc h
    exact Nat.le_of_lt h
  | cons item rest ih =>
    intro acc h
    obtain ⟨T, D⟩ := item
    rcases T with _ | t
    · simp only [searchLines]
      split
      · exact Nat.le_of_lt h
      · exact ih acc h
    · rcases D with _ | d
      · simp only [searchLines]
        split
        · exact Nat.le_of_lt h
        · exact ih acc h
      · simp only [searchLines]
        split
        · rename_i hge
          simp only [List.length_append, List.length_cons, List.length_nil]
          omega
        · apply ih
          rename_i hlt
          simp only [List.length_append, List.length_cons, List.length_nil]
          simp only [List.length_append, List.length_cons, List.length_nil,
            not_le] at hlt
          omega

theorem searchLines_mem : ∀ (items : List SearchItem) (acc : List String)
    (l : String), l ∈ searchLines items acc →
    l ∈ acc ∨ ∃ t d, SearchItem.mk (some t) (some d) ∈ items
      ∧ l = t.trim ++ ": " ++ d.trim := by
  intro items
  induction items with
  | nil =>
    intro acc l h
    left
    exact h
  | cons item rest ih =>
    intro acc l h
    obtain ⟨T, D⟩ := item
    rcases T with _ | t
    · simp only [searchLines] at h
      split at h
      · left
        exact h
      · rcases ih acc l h with h1 | ⟨t2, d2, hm, he⟩
        · left
          exact h1
        · right
          exact ⟨t2, d2, List.mem_cons_of_mem _ hm, he⟩
    · rcases D with _ | d
      · simp only [searchLines] at h
        split at h
        · left
          exact h
        · rcases ih acc l h with h1 | ⟨t2, d2, hm, he⟩
          · left
            exact h1
          · right
            exact ⟨t2, d2, List.mem_cons_of_mem _ hm, he⟩
      · simp only [searchLines] at h
        split at h
        · rcases List.mem_append.mp h with h1 | h1
          · left
            exact h1
          · right
            exact ⟨t, d, List.mem_cons_self _ _, by simpa using h1⟩
        · rcases ih _ l h with h1 | ⟨t2, d2, hm, he⟩
          · rcases List.mem_append.mp h1 with h2 | h2
            · left
              exact h2
            · right
              exact ⟨t, d, List.mem_cons_self _ _, by simpa using h2⟩
          · right
            exact ⟨t2, d2, List.mem_cons_of_mem _ hm, he⟩

theorem searchLines_nomatch : ∀ (items : List SearchItem) (acc : List String),
    (∀ it ∈ items, it.title = none ∨ it.desc = none) →
    searchLines items acc = acc := by
  intro items
  induction items with
  | nil =>
    intro acc h
    rfl
  | cons item rest ih =>
    intro acc h
    have htail : ∀ it ∈ rest, it.title = none ∨ it.desc = none :=
      fun it hm => h it (List.mem_cons_of_mem _ hm)
    have hhead := h item (List.mem_cons_self _ _)
    obtain ⟨T, D⟩ := item
    rcases T with _ | t
    · simp only [searchLines]
      split
      · rfl
      · exact ih acc htail
    · rcases D with _ | d
      · simp only [searchLines]
        split
        · rfl
        · exact ih acc htail
      · exfalso
        rcases hhead with h1 | h1 <;> exact Option.noConfusion h1

theorem joinNL_ne_empty (l : String) (ls : List String) (h : l.data ≠ []) :
    joinNL (l :: ls) ≠ "" := by
  cases ls with
  | nil =>
    intro he
    simp only [joinNL] at he
    exact h (by rw [he])
  | cons m ms =>
    simp only [joinNL]
    apply append_ne_empty_left
    rw [string_data_append]
    intro hnil
    exact h (List.append_eq_nil.mp hnil).1

/-- Claim C8: on every successfully fetched and parsed backend response the
search capability collects at most five heading/caption lines, each from a
block with both parts present; a response with zero matching blocks yields
the no-results sentinel; and the returned text is never the empty string
(and, being a total function of the outcome, never an exception). -/
theorem C8_search_results (items : List SearchItem) :
    (searchLines items []).length ≤ 5
    ∧ (∀ l ∈ searchLines items [],
        ∃ t d, SearchItem.mk (some t) (some d) ∈ items
          ∧ l = t.trim ++ ": " ++ d.trim)
    ∧ ((∀ it ∈ items, it.title = none ∨ it.desc = none) →
        BingSearch_call (.response items) = "未找到相关结果")
    ∧ BingSearch_call (.response items) ≠ "" := by
  refine ⟨searchLines_le5 items [] (by decide), ?_, ?_, ?_⟩
  · intro l hl
    rcases searchLines_mem items [] l hl with h1 | h
    · exact absurd h1 (List.not_mem_nil l)
    · exact h
  · intro h
    simp only [BingSearch_call]
    rw [searchLines_nomatch items [] h]
    rfl
  · simp only [BingSearch_call]
    by_cases hE : (searchLines items []).isEmpty = true
    · rw [if_pos hE]
      decide
    · rw [if_neg hE]
      have hne : searchLines items [] ≠ [] := fun hnil => hE (by rw [hnil]; rfl)
      obtain ⟨l, ls, hL⟩ : ∃ l ls, searchLines items [] = l :: ls := by
        rcases hres2 : searchLines items [] with _ | ⟨a, b⟩
        · exact absurd hres2 hne
        · exact ⟨a, b, rfl⟩
      rw [hL]
      have hl : l ∈ searchLines items [] := by
        rw [hL]
        exact List.mem_cons_self _ _
      rcases searchLines_mem items [] l hl with h1 | ⟨t, d, hmem, he⟩
      · exact absurd h1 (List.not_mem_nil l)
      · have hld : l.data ≠ [] := by
          rw [he, string_data_append, string_data_append]
          intro hnil
          have h2 := List.append_eq_nil.mp (List.append_eq_nil.mp hnil).1
          simpa using h2.2
        exact joinNL_ne_empty l ls hld

/-- Witness for C8: a response whose blocks all lack a part produces the
no-results sentinel. -/
theorem C8_search_results_witness :
    BingSearch_call (.response [⟨none, some "d"⟩, ⟨some "t", none⟩])
      = "未找到相关结果" :=
  (C8_search_results [⟨none, some "d"⟩, ⟨some "t", none⟩]).2.2.1 (by decide)

/-- Claim C6: no capability lets an underlying fault escape as an exception:
the whole body of each capability is guarded, so every fault outcome
(network error, non-2xx status, parse error for the search; compile or
evaluation error for the calculator) is converted into the descriptive
failure string returned as the observation text. -/
theorem C6_capability_boundary :
    (∀ e : String, BingSearch_call (.fault e) = "搜索失败: " ++ e)
    ∧ (∀ e : String, Calculator_call (.error e) = "计算失败: " ++ e)
    ∧ (∀ (expr : PyExpr) (err : PyErr), pyEval expr = .error err →
        Calculator_call (.ok expr) = "计算失败: " ++ errString err)
    ∧ Calculator_call (.ok (.name "x"))
        = "计算失败: name \x27x\x27 is not defined" := by
  refine ⟨fun e => rfl, fun e => rfl, ?_, rfl⟩
  intro expr err h
  simp only [Calculator_call]
  rw [h]

/-- Witness for C6 on a failing evaluation: a bare identifier is a
no-arithmetic-content argument and yields the failure string. -/
theorem C6_capability_boundary_witness :
    Calculator_call (.ok (.name "y"))
      = "计算失败: " ++ errString (.nameError "y") :=
  C6_capability_boundary.2.2.1 (.name "y") (.nameError "y") rfl

/-- Counterexample to claim C7: the restricted environment of the
calculator still exposes the ambient name builtins itself, which evaluates
successfully to the empty dict; hence it is false that only arithmetic
operators and literals are reachable from the evaluated expression. -/
theorem C7_restricted_eval_counterexample :
    pyEval (.name "__builtins__") = .ok .emptyDict
    ∧ ArithOnly (.name "__builtins__") = false
    ∧ Calculator_call (.ok (.name "__builtins__")) = "\x7b\x7d"
    ∧ ¬ (∀ e : PyExpr, pyEvalOk e = true → ArithOnly e = true) := by
  refine ⟨rfl, rfl, rfl, ?_⟩
  intro hall
  have h1 := hall (.name "__builtins__") rfl
  exact absurd h1 (by decide)

theorem arith_eval (e : PyExpr) : ArithOnly e = true →
    ∃ n : Int, pyEval e = .ok (.int n)
      ∧ Calculator_call (.ok e) = toString n := by
  induction e with
  | num n =>
    intro he
    exact ⟨n, rfl, rfl⟩
  | strLit s =>
    intro he
    exact absurd he (by simp [ArithOnly])
  | name s =>
    intro he
    exact absurd he (by simp [ArithOnly])
  | add a b iha ihb =>
    intro he
    simp only [ArithOnly, Bool.and_eq_true] at he
    obtain ⟨na, ha, _⟩ := iha he.1
    obtain ⟨nb, hb, _⟩ := ihb he.2
    have hev : pyEval (.add a b) = .ok (.int (na + nb)) := by
      have h1 : pyEval (.add a b)
          = Except.bind (pyEval a)
              (fun va => Except.bind (pyEval b) (fun vb => pyAdd va vb)) := rfl
      rw [h1, ha, hb]
      rfl
    refine ⟨na + nb, hev, ?_⟩
    simp only [Calculator_call]
    rw [hev]
    rfl
  | sub a b iha ihb =>
    intro he
    simp only [ArithOnly, Bool.and_eq_true] at he
    obtain ⟨na, ha, _⟩ := iha he.1
    obtain ⟨nb, hb, _⟩ := ihb he.2
    have hev : pyEval (.sub a b) = .ok (.int (na - nb)) := by
      have h1 : pyEval (.sub a b)
          = Except.bind (pyEval a)
              (fun va => Except.bind (pyEval b) (fun vb => pySub va vb)) := rfl
      rw [h1, ha, hb]
      rfl
    refine ⟨na - nb, hev, ?_⟩
    simp only [Calculator_call]
    rw [hev]
    rfl
  | mul a b iha ihb =>
    intro he
    simp only [ArithOnly, Bool.and_eq_true] at he
    obtain ⟨na, ha, _⟩ := iha he.1
    obtain ⟨nb, hb, _⟩ := ihb he.2
    have hev : pyEval (.mul a b) = .ok (.int (na * nb)) := by
      have h1 : pyEval (.mul a b)
          = Except.bind (pyEval a)
              (fun va => Except.bind (pyEval b) (fun vb => pyMul va vb)) := rfl
      rw [h1, ha, hb]
      rfl
    refine ⟨na * nb, hev, ?_⟩
    simp only [Calculator_call]
    rw [hev]
    rfl
  | neg a iha =>
    intro he
    simp only [ArithOnly] at he
    obtain ⟨na, ha, _⟩ := iha he
    have hev : pyEval (.neg a) = .ok (.int (-na)) := by
      have h1 : pyEval (.neg a)
          = Except.bind (pyEval a) (fun va => pyNeg va) := rfl
      rw [h1, ha]
      rfl
    refine ⟨-na, hev, ?_⟩
    simp only [Calculator_call]
    rw [hev]
    rfl

/-- Claim C7 as amended: the calculator evaluates its argument with empty
builtins and empty locals, so no ambient name other than the builtins
binding itself resolves (every other name lookup raises NameError), and a
purely arithmetic expression evaluates to its numeric result returned in
string form; however the evaluated language is not limited to arithmetic:
the name of the builtins binding itself evaluates successfully. -/
theorem C7_restricted_eval_amended :
    (∀ s : String, s ≠ "__builtins__"
        → lookupRestricted s = .error (.nameError s))
    ∧ (∀ e : PyExpr, ArithOnly e = true
        → ∃ n : Int, pyEval e = .ok (.int n)
            ∧ Calculator_call (.ok e) = toString n)
    ∧ pyEval (.name "__builtins__") = .ok .emptyDict := by
  refine ⟨?_, arith_eval, rfl⟩
  intro s hs
  simp only [lookupRestricted]
  rw [if_neg hs]

/-- Witness for the amended C7 at a concrete name and a concrete arithmetic
expression. -/
theorem C7_restricted_eval_amended_witness :
    lookupRestricted "x" = .error (.nameError "x")
    ∧ ∃ n : Int, pyEval (.add (.num 2) (.num 3)) = .ok (.int n)
        ∧ Calculator_call (.ok (.add (.num 2) (.num 3))) = toString n :=
  ⟨C7_restricted_eval_amended.1 "x" (by decide),
   C7_restricted_eval_amended.2.1 (.add (.num 2) (.num 3)) (by decide)⟩
